import Mathlib

/-!
Shallow embedding of the reliable-multicast system (lamport_clock.py,
message.py, reliable_multicast.py) and proofs about it.

Conventions of the embedding:
  * Python ints are `Int`; wall-clock times are `Nat` (only their order and
    the comparison `now - sent > ack_timeout` matter, written `sent + 5 < now`).
  * Python sets are duplicate-free `List`s maintained with insert-if-absent;
    Python dicts are association lists.
  * `uuid.uuid4()` is nondeterministic, so every operation that generates a
    fresh id takes the generated string as an explicit argument.
  * Callbacks (`send_callback`, `on_message_delivered`, `on_message_failed`)
    are modelled by returning the list of invocations an operation performs.
  * JSON text is modelled as an association list of fields holding the JSON
    values that actually occur on this wire (strings, ints, bools, int
    arrays); field access `data[k]` / `data.get(k, d)` is modelled as
    shape-checked lookup.
-/

namespace RM

/-- LamportClock (lamport_clock.py): the stored counter is an `Int`
initialised to 0; `tick` and `update` return the new stored value. -/
def LamportClock.tick (c : Int) : Int := c + 1

/-- update of lamport_clock.py: clock := max(clock, received_timestamp) + 1. -/
def LamportClock.update (c : Int) (receivedTimestamp : Int) : Int :=
  max c receivedTimestamp + 1

/-- ClockOp: one call to the clock, either tick() or update(t). -/
inductive ClockOp
| tick
| update (t : Int)
deriving DecidableEq, Repr

/-- applyOp: the stored clock value after performing one operation. -/
def applyOp (c : Int) : ClockOp → Int
| ClockOp.tick => LamportClock.tick c
| ClockOp.update t => LamportClock.update c t

/-- clockRun: the sequence of values returned by a sequence of successive
clock operations starting from stored value c (each call returns the new
stored value). -/
def clockRun (c : Int) : List ClockOp → List Int
| [] => []
| op :: ops => applyOp c op :: clockRun (applyOp c op) ops

/-- MessageType (message.py): the five enum values. -/
inductive MessageType
| multicast
| ack
| heartbeat
| join
| leave
deriving DecidableEq, Repr

/-- value: the wire string of each MessageType enum member. -/
def MessageType.value : MessageType → String
| MessageType.multicast => "multicast"
| MessageType.ack => "acknowledgment"
| MessageType.heartbeat => "heartbeat"
| MessageType.join => "join"
| MessageType.leave => "leave"

/-- ofValue: the enum constructor MessageType(s); ValueError (an unknown
discriminator) is `none`. -/
def MessageType.ofValue (s : String) : Option MessageType :=
  if s = "multicast" then some MessageType.multicast
  else if s = "acknowledgment" then some MessageType.ack
  else if s = "heartbeat" then some MessageType.heartbeat
  else if s = "join" then some MessageType.join
  else if s = "leave" then some MessageType.leave
  else none

/-- MulticastMessage (message.py): its message_type field is always
MULTICAST after `__post_init__`, so the tag is carried by the type. -/
structure MulticastMessage where
  messageId : String
  senderId : Int
  timestamp : Int
  content : String
  recipients : List Int
  sequenceNumber : Int
  requiresAck : Bool
deriving DecidableEq, Repr

/-- AckMessage (message.py): message_type is always ACK after
`__post_init__`. -/
structure AckMessage where
  messageId : String
  senderId : Int
  timestamp : Int
  content : String
  recipients : List Int
  originalMessageId : String
deriving DecidableEq, Repr

/-- BaseMessage: a plain Message instance (the `else` branch of from_json,
used for HEARTBEAT/JOIN/LEAVE frames); it keeps its message_type field. -/
structure BaseMessage where
  messageId : String
  senderId : Int
  messageType : MessageType
  timestamp : Int
  content : String
  recipients : List Int
deriving DecidableEq, Repr

/-- Msg: the tagged union of the three concrete message classes. -/
inductive Msg
| mc (m : MulticastMessage)
| ack (a : AckMessage)
| base (b : BaseMessage)
deriving DecidableEq, Repr

/-- msgId: the message_id field of any message. -/
def Msg.msgId : Msg → String
| Msg.mc m => m.messageId
| Msg.ack a => a.messageId
| Msg.base b => b.messageId

/-- JVal: the JSON values that occur in this wire format. -/
inductive JVal
| s (v : String)
| i (v : Int)
| b (v : Bool)
| arr (v : List Int)
deriving DecidableEq, Repr

/-- JObj: a JSON object as an association list of fields. -/
abbrev JObj := List (String × JVal)

/-- jget: field lookup, `data[k]` when it hits, `none` for a KeyError. -/
def jget (o : JObj) (k : String) : Option JVal :=
  (o.find? (fun p => p.1 = k)).map Prod.snd

/-- toJson of a MulticastMessage: asdict(...) in dataclass field order with
message_type replaced by its enum value string. -/
def MulticastMessage.toJson (m : MulticastMessage) : JObj :=
  [("message_id", JVal.s m.messageId),
   ("sender_id", JVal.i m.senderId),
   ("message_type", JVal.s MessageType.multicast.value),
   ("timestamp", JVal.i m.timestamp),
   ("content", JVal.s m.content),
   ("recipients", JVal.arr m.recipients),
   ("sequence_number", JVal.i m.sequenceNumber),
   ("requires_ack", JVal.b m.requiresAck)]

/-- toJson of an AckMessage. -/
def AckMessage.toJson (a : AckMessage) : JObj :=
  [("message_id", JVal.s a.messageId),
   ("sender_id", JVal.i a.senderId),
   ("message_type", JVal.s MessageType.ack.value),
   ("timestamp", JVal.i a.timestamp),
   ("content", JVal.s a.content),
   ("recipients", JVal.arr a.recipients),
   ("original_message_id", JVal.s a.originalMessageId)]

/-- toJson of a base Message. -/
def BaseMessage.toJson (b : BaseMessage) : JObj :=
  [("message_id", JVal.s b.messageId),
   ("sender_id", JVal.i b.senderId),
   ("message_type", JVal.s b.messageType.value),
   ("timestamp", JVal.i b.timestamp),
   ("content", JVal.s b.content),
   ("recipients", JVal.arr b.recipients)]

/-- toJson: Message.to_json on any concrete message. -/
def Msg.toJson : Msg → JObj
| Msg.mc m => m.toJson
| Msg.ack a => a.toJson
| Msg.base b => b.toJson

/-- fixId: Message.__post_init__ — an empty message_id is replaced by a
fresh uuid4 string (passed in as `fresh`). -/
def fixId (fresh : String) (id : String) : String :=
  if id = "" then fresh else id

/-- jgetRecipients: data.get('recipients', []) — absent field defaults to
the empty list. -/
def jgetRecipients (o : JObj) : Option (List Int) :=
  match jget o "recipients" with
  | none => some []
  | some (JVal.arr l) => some l
  | some _ => none

/-- jgetSeq: data.get('sequence_number', 0). -/
def jgetSeq (o : JObj) : Option Int :=
  match jget o "sequence_number" with
  | none => some 0
  | some (JVal.i n) => some n
  | some _ => none

/-- jgetReqAck: data.get('requires_ack', True). -/
def jgetReqAck (o : JObj) : Option Bool :=
  match jget o "requires_ack" with
  | none => some true
  | some (JVal.b b) => some b
  | some _ => none

/-- jgetOrigId: data.get('original_message_id', ''). -/
def jgetOrigId (o : JObj) : Option String :=
  match jget o "original_message_id" with
  | none => some ""
  | some (JVal.s s) => some s
  | some _ => none

/-- fromJson: Message.from_json. Reads message_type through the enum
constructor (unknown discriminator is a decode error), then the four
required fields message_id, sender_id, timestamp, content (a missing field
is a KeyError, hence a decode error), then builds the class selected by the
discriminator, applying the defaults of .get and the `__post_init__` fixup
of an empty message_id (`fresh` is the uuid4 that call would generate). -/
def fromJson (fresh : String) (o : JObj) : Option Msg :=
  match jget o "message_type" with
  | some (JVal.s mts) =>
    match MessageType.ofValue mts with
    | none => none
    | some mt =>
      match jget o "message_id", jget o "sender_id",
            jget o "timestamp", jget o "content" with
      | some (JVal.s mid), some (JVal.i sid), some (JVal.i ts),
        some (JVal.s c) =>
        match jgetRecipients o with
        | none => none
        | some rcpts =>
          match mt with
          | MessageType.multicast =>
            match jgetSeq o, jgetReqAck o with
            | some sq, some ra =>
              some (Msg.mc ⟨fixId fresh mid, sid, ts, c, rcpts, sq, ra⟩)
            | _, _ => none
          | MessageType.ack =>
            match jgetOrigId o with
            | none => none
            | some orig =>
              some (Msg.ack ⟨fixId fresh mid, sid, ts, c, rcpts, orig⟩)
          | mt' => some (Msg.base ⟨fixId fresh mid, sid, mt', ts, c, rcpts⟩)
      | _, _, _, _ => none
  | _ => none

/-- PendingMessage (reliable_multicast.py): ack_received is a Python set,
kept here as a duplicate-free list. -/
structure PendingMessage where
  message : MulticastMessage
  sentTime : Nat
  ackReceived : List Int
  retryCount : Nat
deriving DecidableEq, Repr

/-- ackTimeout: self.ack_timeout = 5.0 seconds. -/
def ackTimeout : Nat := 5

/-- maxRetries: self.max_retries = 3. -/
def maxRetries : Nat := 3

/-- EngineState: the mutable fields of a ReliableMulticast instance.
received_messages stores id -> message but only key membership is ever
read, so it is kept as the list of keys; sequence_numbers is a defaultdict
of which only the local process's counter is used on the send path. -/
structure EngineState where
  processId : Int
  clock : Int
  pending : List (String × PendingMessage)
  received : List String
  delivered : List String
  queue : List MulticastMessage
  seqNum : Int
  known : List Int
deriving DecidableEq, Repr

/-- init: the state built by ReliableMulticast.__init__ (clock fresh at 0,
known_processes = {process_id}). -/
def EngineState.init (pid : Int) : EngineState :=
  ⟨pid, 0, [], [], [], [], 0, [pid]⟩

/-- setInsert: Python set.add — insert if absent. -/
def setInsert (x : Int) (l : List Int) : List Int :=
  if x ∈ l then l else l ++ [x]

/-- keyLtb: the strict (timestamp, sender_id) lexicographic comparison used
both by _add_to_ordered_queue and by the delivery guard of
_try_deliver_messages. -/
def keyLtb (a b : MulticastMessage) : Bool :=
  a.timestamp < b.timestamp ||
    (a.timestamp == b.timestamp && a.senderId < b.senderId)

/-- addToOrderedQueue: _add_to_ordered_queue — insert before the first
queued message that m strictly precedes by (timestamp, sender_id), else
append. -/
def addToOrderedQueue (m : MulticastMessage) :
    List MulticastMessage → List MulticastMessage
| [] => [m]
| q :: rest =>
  if keyLtb m q then m :: q :: rest else q :: addToOrderedQueue m rest

/-- tryDeliver: the loop of _try_deliver_messages over (message_queue,
delivered_messages). Returns the final queue, the final delivered set, and
the on_message_delivered invocations in order. The head is delivered when
no other queued message strictly precedes it and its id is not already
delivered; otherwise the loop breaks. -/
def tryDeliver : List MulticastMessage → List String →
    List MulticastMessage × List String × List MulticastMessage
| [], delivered => ([], delivered, [])
| m :: rest, delivered =>
  let canDeliver := rest.all (fun o => ! keyLtb o m)
  if canDeliver && ! delivered.contains m.messageId then
    let r := tryDeliver rest (m.messageId :: delivered)
    (r.1, r.2.1, m :: r.2.2)
  else (m :: rest, delivered, [])

/-- multicast: ReliableMulticast.multicast. `freshId` is the uuid4 the
factory would generate, `now` is time.time(). Returns the new state and
the send_callback invocations (message, recipient_id) in order. -/
def EngineState.multicast (s : EngineState) (content : String)
    (recipients? : Option (List Int)) (freshId : String) (now : Nat) :
    EngineState × List (MulticastMessage × Int) :=
  let recipients :=
    match recipients? with
    | none => s.known.filter (fun p => p ≠ s.processId)
    | some r => r
  let ts := LamportClock.tick s.clock
  let msg : MulticastMessage :=
    ⟨freshId, s.processId, ts, content, recipients, s.seqNum, true⟩
  ({ s with
      clock := ts
      seqNum := s.seqNum + 1
      pending := s.pending ++ [(freshId, ⟨msg, now, [], 0⟩)] },
   recipients.map (fun r => (msg, r)))

/-- handleMulticastMsg: _handle_multicast_message (the lamport update of
handle_received_message has already run). Returns the new state, the Ack
sends (ack, target) and the on_message_delivered invocations. A duplicate
message_id returns immediately with no effect. -/
def EngineState.handleMulticastMsg (s : EngineState) (m : MulticastMessage)
    (ackFresh : String) :
    EngineState × List (AckMessage × Int) × List MulticastMessage :=
  if s.received.contains m.messageId then (s, [], [])
  else
    let ackTs := LamportClock.tick s.clock
    let ackMsg : AckMessage :=
      ⟨ackFresh, s.processId, ackTs, "ACK", [], m.messageId⟩
    let q := addToOrderedQueue m s.queue
    let r := tryDeliver q s.delivered
    ({ s with
        known := setInsert m.senderId s.known
        received := s.received ++ [m.messageId]
        clock := ackTs
        queue := r.1
        delivered := r.2.1 },
     [(ackMsg, m.senderId)], r.2.2)

/-- handleAckMsg: _handle_ack_message. On a known original_message_id the
ack's sender is added (set add) to ack_received unconditionally; the entry
is removed when the count of acks reaches len(recipients). -/
def EngineState.handleAckMsg (s : EngineState) (a : AckMessage) :
    EngineState :=
  match s.pending.find? (fun e => e.1 = a.originalMessageId) with
  | none => s
  | some e =>
    let acks := if a.senderId ∈ e.2.ackReceived then e.2.ackReceived
                else e.2.ackReceived ++ [a.senderId]
    if e.2.message.recipients.length ≤ acks.length then
      { s with pending := s.pending.filter (fun p => p.1 ≠ a.originalMessageId) }
    else
      { s with pending := s.pending.map (fun p =>
          if p.1 = a.originalMessageId then
            (p.1, { p.2 with ackReceived := acks })
          else p) }

/-- handleReceived: handle_received_message — update the lamport clock from
the inbound timestamp, then dispatch on the message type (other types are
ignored). -/
def EngineState.handleReceived (s : EngineState) (m : Msg)
    (ackFresh : String) :
    EngineState × List (AckMessage × Int) × List MulticastMessage :=
  let ts := match m with
    | Msg.mc x => x.timestamp
    | Msg.ack a => a.timestamp
    | Msg.base b => b.timestamp
  let s' := { s with clock := LamportClock.update s.clock ts }
  match m with
  | Msg.mc x => s'.handleMulticastMsg x ackFresh
  | Msg.ack a => (s'.handleAckMsg a, [], [])
  | Msg.base _ => (s', [], [])

/-- expiredb: the timeout test current_time - pending.sent_time >
ack_timeout of _timeout_checker. -/
def expiredb (now : Nat) (p : PendingMessage) : Bool :=
  p.sentTime + ackTimeout < now

/-- retrySends: the retransmissions for one retried entry — one send per
element of set(recipients) - ack_received. -/
def retrySends (p : PendingMessage) : List (MulticastMessage × Int) :=
  ((p.message.recipients.dedup).filter
      (fun r => ! p.ackReceived.contains r)).map
    (fun r => (p.message, r))

/-- timeoutSweep: one iteration of the _timeout_checker loop at wall time
`now`. Expired entries with retry_count < max_retries are retried (count
incremented, sent_time reset to now, missing recipients re-sent); expired
entries out of budget are removed and reported via on_message_failed.
Returns the new state, the send_callback invocations and the
on_message_failed invocations. -/
def EngineState.timeoutSweep (s : EngineState) (now : Nat) :
    EngineState × List (MulticastMessage × Int) × List MulticastMessage :=
  let failP := fun (e : String × PendingMessage) =>
    expiredb now e.2 && ! decide (e.2.retryCount < maxRetries)
  let fails := s.pending.filter failP
  let kept := s.pending.filter (fun e => ! failP e)
  let retries := kept.filter (fun e => expiredb now e.2)
  let newPending := kept.map (fun e =>
    if expiredb now e.2 then
      (e.1, { e.2 with retryCount := e.2.retryCount + 1, sentTime := now })
    else e)
  ({ s with pending := newPending },
   (retries.map (fun e => retrySends e.2)).flatten,
   fails.map (fun e => e.2.message))

/-- mEqA: a queued multicast with key (timestamp 1, sender 0). -/
def mEqA : MulticastMessage := ⟨"a", 0, 1, "x", [], 0, true⟩

/-- mEqB: a distinct queued multicast with the same key (1, 0) as mEqA. -/
def mEqB : MulticastMessage := ⟨"b", 0, 1, "y", [], 0, true⟩

/-- failP: the failure test of one _timeout_checker entry — expired and out
of retry budget. -/
def failP (now : Nat) (e : String × PendingMessage) : Bool :=
  expiredb now e.2 && ! decide (e.2.retryCount < maxRetries)

/-- sweepPending: the pending table left by one timeout sweep. -/
def sweepPending (now : Nat) (l : List (String × PendingMessage)) :
    List (String × PendingMessage) :=
  (l.filter (fun e => ! failP now e)).map (fun e =>
    if expiredb now e.2 then
      (e.1, { e.2 with retryCount := e.2.retryCount + 1, sentTime := now })
    else e)

/-- sweepSends: the retransmissions of one timeout sweep. -/
def sweepSends (now : Nat) (l : List (String × PendingMessage)) :
    List (MulticastMessage × Int) :=
  (((l.filter (fun e => ! failP now e)).filter
      (fun e => expiredb now e.2)).map (fun e => retrySends e.2)).flatten

/-- sweepFails: the on_message_failed invocations of one timeout sweep. -/
def sweepFails (now : Nat) (l : List (String × PendingMessage)) :
    List MulticastMessage :=
  (l.filter (failP now)).map (fun e => e.2.message)

/-- PendingInv: invariant 4 of the data model — for every pending entry,
ack_received is a subset of the message's recipients. -/
def PendingInv (s : EngineState) : Prop :=
  ∀ e ∈ s.pending, ∀ a ∈ e.2.ackReceived, a ∈ e.2.message.recipients

/-! Helper lemmas shared by the claim theorems. -/

theorem handleMulticastMsg_pending (s : EngineState) (m : MulticastMessage)
    (f : String) : (s.handleMulticastMsg m f).1.pending = s.pending := by
  unfold EngineState.handleMulticastMsg
  split <;> rfl

theorem applyOp_gt (c : Int) (op : ClockOp) : c < applyOp c op := by
  cases op with
  | tick => simp [applyOp, LamportClock.tick]
  | update t =>
    simp only [applyOp, LamportClock.update]
    have h := le_max_left c t
    omega

theorem clockRun_chain (ops : List ClockOp) :
    ∀ c : Int, List.Chain' (· < ·) (c :: clockRun c ops) := by
  induction ops with
  | nil => intro c; simp [clockRun]
  | cons op ops ih =>
    intro c
    rw [clockRun, List.chain'_cons]
    exact ⟨applyOp_gt c op, ih (applyOp c op)⟩

theorem assoc_nodup_mem_unique {β : Type} :
    ∀ {l : List (String × β)}, (l.map Prod.fst).Nodup →
      ∀ {k : String} {a b : β}, (k, a) ∈ l → (k, b) ∈ l → a = b := by
  intro l
  induction l with
  | nil => intro _ k a b ha _; cases ha
  | cons e t ih =>
    intro h k a b ha hb
    rw [List.map_cons, List.nodup_cons] at h
    rcases List.mem_cons.mp ha with ha1 | ha2
    · subst ha1
      rcases List.mem_cons.mp hb with hb1 | hb2
      · injection hb1 with h1 h2
        exact h2.symm
      · exact absurd (List.mem_map.mpr ⟨(k, b), hb2, rfl⟩) h.1
    · rcases List.mem_cons.mp hb with hb1 | hb2
      · subst hb1
        exact absurd (List.mem_map.mpr ⟨(k, a), ha2, rfl⟩) h.1
      · exact ih h.2 ha2 hb2

theorem timeoutSweep_eq (s : EngineState) (now : Nat) :
    s.timeoutSweep now =
      ({ s with pending := sweepPending now s.pending },
       sweepSends now s.pending, sweepFails now s.pending) := rfl

theorem fails_filter_eq {q : String × PendingMessage → Bool} :
    ∀ {l : List (String × PendingMessage)}, (l.map Prod.fst).Nodup →
      (∀ e ∈ l, e.2.message.messageId = e.1) →
      ∀ {id : String} {p : PendingMessage}, (id, p) ∈ l →
      ((l.filter q).map (fun e => e.2.message)).filter
          (fun m => m.messageId = id)
        = if q (id, p) then [p.message] else [] := by
  intro l
  induction l with
  | nil => intro _ _ id p hmem; exact (List.not_mem_nil _ hmem).elim
  | cons e t ih =>
    intro hkeys hids id p hmem
    rw [List.map_cons, List.nodup_cons] at hkeys
    have hidt : ∀ x ∈ t, x.2.message.messageId = x.1 :=
      fun x hx => hids x (List.mem_cons_of_mem _ hx)
    rcases List.mem_cons.mp hmem with h1 | h2
    · subst h1
      have hhead : p.message.messageId = id := by
        simpa using hids (id, p) (List.mem_cons_self _ _)
      have hrest : ((t.filter q).map (fun e => e.2.message)).filter
          (fun m => m.messageId = id) = [] := by
        rw [List.filter_eq_nil_iff]
        intro m hm
        simp only [List.mem_map] at hm
        obtain ⟨e', he', rfl⟩ := hm
        have he't : e' ∈ t := (List.mem_filter.mp he').1
        have hne : e'.2.message.messageId ≠ id := by
          rw [hidt e' he't]
          intro hc
          apply hkeys.1
          have hin : e'.1 ∈ t.map Prod.fst :=
            List.mem_map.mpr ⟨e', he't, rfl⟩
          rw [hc] at hin
          exact hin
        simpa using hne
      cases hq : q (id, p) with
      | true => simp [List.filter_cons, hq, hrest, hhead]
      | false => simp [List.filter_cons, hq, hrest]
    · have hidin : id ∈ t.map Prod.fst :=
        List.mem_map.mpr ⟨(id, p), h2, rfl⟩
      have hne : e.2.message.messageId ≠ id := by
        rw [hids e (List.mem_cons_self _ _)]
        intro hc
        rw [hc] at hkeys
        exact hkeys.1 hidin
      have := ih hkeys.2 hidt h2
      cases hq : q e with
      | true => simp [List.filter_cons, hq, hne, this]
      | false => simp [List.filter_cons, hq, this]

theorem timeoutSweep_single_retry (s : EngineState) (id : String)
    (p : PendingMessage) (hp : s.pending = [(id, p)]) (now : Nat)
    (hexp : p.sentTime + ackTimeout < now)
    (hrc : p.retryCount < maxRetries)
    (hrcpt : p.message.recipients = []) :
    (s.timeoutSweep now).1.pending
      = [(id, { p with retryCount := p.retryCount + 1, sentTime := now })]
    ∧ (s.timeoutSweep now).2.1 = [] ∧ (s.timeoutSweep now).2.2 = [] := by
  have he : expiredb now p = true := by
    simp only [expiredb, decide_eq_true_eq]
    exact hexp
  have hr : decide (p.retryCount < maxRetries) = true := decide_eq_true hrc
  refine ⟨?_, ?_, ?_⟩ <;>
    simp [EngineState.timeoutSweep, hp, he, hr, retrySends, hrcpt]

theorem timeoutSweep_single_fail (s : EngineState) (id : String)
    (p : PendingMessage) (hp : s.pending = [(id, p)]) (now : Nat)
    (hexp : p.sentTime + ackTimeout < now)
    (hrc : ¬ p.retryCount < maxRetries) :
    (s.timeoutSweep now).1.pending = [] ∧ (s.timeoutSweep now).2.1 = []
    ∧ (s.timeoutSweep now).2.2 = [p.message] := by
  have he : expiredb now p = true := by
    simp only [expiredb, decide_eq_true_eq]
    exact hexp
  have hr : decide (p.retryCount < maxRetries) = false := decide_eq_false hrc
  refine ⟨?_, ?_, ?_⟩ <;>
    simp [EngineState.timeoutSweep, hp, he, hr]

theorem tryDeliver_cons (m : MulticastMessage) (rest : List MulticastMessage)
    (d : List String) :
    tryDeliver (m :: rest) d =
      if rest.all (fun o => ! keyLtb o m) && ! d.contains m.messageId then
        ((tryDeliver rest (m.messageId :: d)).1,
         (tryDeliver rest (m.messageId :: d)).2.1,
         m :: (tryDeliver rest (m.messageId :: d)).2.2)
      else (m :: rest, d, []) := rfl

theorem tryDeliver_delivered_sup :
    ∀ (q : List MulticastMessage) (d : List String) (x : String),
      x ∈ d → x ∈ (tryDeliver q d).2.1 := by
  intro q
  induction q with
  | nil => intro d x hx; simpa [tryDeliver] using hx
  | cons m rest ih =>
    intro d x hx
    rw [tryDeliver_cons]
    by_cases h : (rest.all (fun o => ! keyLtb o m)
        && ! d.contains m.messageId) = true
    · rw [if_pos h]
      exact ih (m.messageId :: d) x (List.mem_cons_of_mem _ hx)
    · rw [if_neg h]
      exact hx

theorem handleMulticastMsg_fresh (s : EngineState) (m : MulticastMessage)
    (f : String) (h : m.messageId ∉ s.received) :
    s.handleMulticastMsg m f =
      ({ s with
          known := setInsert m.senderId s.known
          received := s.received ++ [m.messageId]
          clock := LamportClock.tick s.clock
          queue := (tryDeliver (addToOrderedQueue m s.queue) s.delivered).1
          delivered :=
            (tryDeliver (addToOrderedQueue m s.queue) s.delivered).2.1 },
       [(⟨f, s.processId, LamportClock.tick s.clock, "ACK", [],
           m.messageId⟩, m.senderId)],
       (tryDeliver (addToOrderedQueue m s.queue) s.delivered).2.2) := by
  unfold EngineState.handleMulticastMsg
  rw [if_neg (by simpa using h)]

theorem handleMulticastMsg_dup (s : EngineState) (m : MulticastMessage)
    (f : String) (h : m.messageId ∈ s.received) :
    s.handleMulticastMsg m f = (s, [], []) := by
  unfold EngineState.handleMulticastMsg
  rw [if_pos (by simpa using h)]

theorem handleReceived_mc (s : EngineState) (m : MulticastMessage)
    (f : String) :
    s.handleReceived (Msg.mc m) f =
      ({ s with clock := LamportClock.update s.clock m.timestamp
        }).handleMulticastMsg m f := rfl

theorem tryDeliver_calls_fresh :
    ∀ (q : List MulticastMessage) (d : List String),
      ((tryDeliver q d).2.2.map (fun m => m.messageId)).Nodup
      ∧ ∀ x ∈ (tryDeliver q d).2.2, x.messageId ∉ d := by
  intro q
  induction q with
  | nil =>
    intro d
    exact ⟨List.nodup_nil, fun x hx => absurd hx (List.not_mem_nil x)⟩
  | cons m rest ih =>
    intro d
    rw [tryDeliver_cons]
    by_cases hc : (rest.all (fun o => ! keyLtb o m)
        && ! d.contains m.messageId) = true
    · rw [if_pos hc]
      have hmd : m.messageId ∉ d := by
        have h2 := (Bool.and_eq_true _ _ |>.mp hc).2
        simpa using h2
      obtain ⟨ihn, ihd⟩ := ih (m.messageId :: d)
      constructor
      · rw [List.map_cons, List.nodup_cons]
        refine ⟨?_, ihn⟩
        intro hin
        simp only [List.mem_map] at hin
        obtain ⟨x, hx, hxe⟩ := hin
        exact ihd x hx (by rw [hxe]; exact List.mem_cons_self _ _)
      · intro x hx
        rcases List.mem_cons.mp hx with h1 | h2
        · rw [h1]
          exact hmd
        · intro hxd
          exact ihd x h2 (List.mem_cons_of_mem _ hxd)
    · rw [if_neg hc]
      exact ⟨List.nodup_nil, fun x hx => absurd hx (List.not_mem_nil x)⟩

theorem filter_key_len_le_one {α : Type} (f : α → String) (k : String) :
    ∀ l : List α, (l.map f).Nodup →
      (l.filter (fun x => f x = k)).length ≤ 1 := by
  intro l
  induction l with
  | nil => intro _; simp
  | cons a t ih =>
    intro h
    rw [List.map_cons, List.nodup_cons] at h
    by_cases hk : f a = k
    · have ht : t.filter (fun x => f x = k) = [] := by
        rw [List.filter_eq_nil_iff]
        intro b hb hfb
        apply h.1
        have hin : f b ∈ t.map f := List.mem_map.mpr ⟨b, hb, rfl⟩
        have hfb' : f b = k := by simpa using hfb
        rw [hk, ← hfb']
        exact hin
      simp [List.filter_cons, hk, ht]
    · simp only [List.filter_cons, hk]
      simp only [decide_eq_true_eq, if_neg hk]
      exact ih h.2

theorem fromJson_fresh_eq (u1 u2 : String) (o : JObj) (mid : String)
    (hmid : jget o "message_id" = some (JVal.s mid)) (hne : mid ≠ "") :
    fromJson u1 o = fromJson u2 o := by
  unfold fromJson
  rw [hmid]
  repeat' split
  all_goals simp_all [fixId]

theorem fromJson_msgId (fresh : String) (o : JObj) (m : Msg) (mid : String)
    (hmid : jget o "message_id" = some (JVal.s mid))
    (h : fromJson fresh o = some m) : m.msgId = fixId fresh mid := by
  unfold fromJson at h
  rw [hmid] at h
  repeat' split at h
  all_goals simp_all [Msg.msgId, fixId]
  all_goals rw [← h]

/-! Claim theorems. -/

/-- C8: for every sequence of successive Lamport clock operations on one
peer — tick() and update(t) — the returned clock values are strictly
increasing; in particular update(t) returns max(stored, t) + 1 and tick()
returns stored + 1, each strictly greater than the previous stored
value. -/
theorem lamport_values_strictly_increasing :
    (∀ (c : Int) (ops : List ClockOp),
        List.Chain' (· < ·) (c :: clockRun c ops))
    ∧ (∀ c t : Int,
        LamportClock.update c t = max c t + 1 ∧ c < LamportClock.update c t)
    ∧ (∀ c : Int, LamportClock.tick c = c + 1 ∧ c < LamportClock.tick c) := by
  refine ⟨fun c ops => clockRun_chain ops c, fun c t => ⟨rfl, ?_⟩,
    fun c => ⟨rfl, ?_⟩⟩
  · exact applyOp_gt c (ClockOp.update t)
  · exact applyOp_gt c ClockOp.tick

/-- C1 (amended): in the delivery loop the head of the ordering queue is
removed, added to the delivered set and handed to on_delivered exactly when
no other queued entry has a STRICTLY smaller (timestamp, sender_id) key and
the head's message_id is not already in the delivered set; otherwise the
loop stops with the queue and the delivered set unchanged. An entry with a
key equal to the head's does not block delivery. -/
theorem tryDeliver_head_characterization (m : MulticastMessage)
    (rest : List MulticastMessage) (d : List String) :
    (((∀ o ∈ rest, keyLtb o m = false) ∧ m.messageId ∉ d) →
        (tryDeliver (m :: rest) d).2.2.head? = some m
        ∧ m.messageId ∈ (tryDeliver (m :: rest) d).2.1
        ∧ (tryDeliver (m :: rest) d).1
            = (tryDeliver rest (m.messageId :: d)).1)
    ∧ ((¬ ((∀ o ∈ rest, keyLtb o m = false) ∧ m.messageId ∉ d)) →
        tryDeliver (m :: rest) d = (m :: rest, d, [])) := by
  rw [tryDeliver_cons]
  by_cases h : (∀ o ∈ rest, keyLtb o m = false) ∧ m.messageId ∉ d
  · have hb : (rest.all (fun o => ! keyLtb o m)
        && ! d.contains m.messageId) = true := by
      simp only [Bool.and_eq_true, List.all_eq_true, Bool.not_eq_true']
      exact ⟨fun o ho => h.1 o ho, by simpa using h.2⟩
    rw [if_pos hb]
    refine ⟨fun _ => ⟨rfl, ?_, rfl⟩, fun hc => absurd h hc⟩
    exact tryDeliver_delivered_sup rest (m.messageId :: d) m.messageId
      (List.mem_cons_self _ _)
  · have hb : ¬ ((rest.all (fun o => ! keyLtb o m)
        && ! d.contains m.messageId) = true) := by
      simp only [Bool.and_eq_true, List.all_eq_true, Bool.not_eq_true']
      intro hc
      exact h ⟨fun o ho => hc.1 o ho, by simpa using hc.2⟩
    rw [if_neg hb]
    exact ⟨fun hc => absurd hc h, fun _ => rfl⟩

/-- C1 witness: the head of a singleton fresh queue is delivered, while a
head whose id is already delivered blocks the loop. -/
theorem tryDeliver_head_characterization_witness :
    ((tryDeliver [mEqA] []).2.2.head? = some mEqA
      ∧ mEqA.messageId ∈ (tryDeliver [mEqA] []).2.1
      ∧ (tryDeliver [mEqA] []).1 = (tryDeliver [] [mEqA.messageId]).1)
    ∧ tryDeliver [mEqA] ["a"] = ([mEqA], ["a"], []) := by
  constructor
  · exact (tryDeliver_head_characterization mEqA [] []).1 (by decide)
  · exact (tryDeliver_head_characterization mEqA [] ["a"]).2 (by decide)

/-- C1 counterexample: with two distinct queued messages of equal key
(timestamp 1, sender 0) the claim demands that the loop stop with the queue
unchanged (the head is not the unique minimum), but the code delivers both:
the queue empties, both ids enter the delivered set and on_delivered fires
for both messages. -/
theorem tryDeliver_equal_key_counterexample :
    keyLtb mEqB mEqA = false ∧ keyLtb mEqA mEqB = false ∧ mEqA ≠ mEqB
    ∧ tryDeliver [mEqA, mEqB] [] = ([], ["b", "a"], [mEqA, mEqB]) := by
  refine ⟨rfl, rfl, by decide, rfl⟩

/-- C2 (amended): the sender does not deliver its own multicast. The send
path leaves the delivered set and the ordering queue unchanged and invokes
no on_delivered, and it hands the message to the transport only for the
listed recipients, which by default exclude the sender; ack handling and
the timeout sweep also never deliver. A peer delivers only while handling
an inbound Multicast, and handling any fresh inbound Multicast emits an Ack
to its sender — so a sender that received its own frame back (possible only
when it lists itself as recipient) would deliver it but also ack itself. -/
theorem sender_no_self_delivery :
    (∀ (s : EngineState) (content : String) (r? : Option (List Int))
        (id : String) (now : Nat),
        (s.multicast content r? id now).1.delivered = s.delivered
        ∧ (s.multicast content r? id now).1.queue = s.queue)
    ∧ (∀ (s : EngineState) (content id : String) (now : Nat)
        (mm : MulticastMessage) (r : Int),
        (mm, r) ∈ (s.multicast content none id now).2 → r ≠ s.processId)
    ∧ (∀ (s : EngineState) (content id : String) (l : List Int) (now : Nat)
        (mm : MulticastMessage) (r : Int),
        (mm, r) ∈ (s.multicast content (some l) id now).2 → r ∈ l)
    ∧ (∀ (s : EngineState) (a : AckMessage),
        (s.handleAckMsg a).delivered = s.delivered
        ∧ (s.handleAckMsg a).queue = s.queue)
    ∧ (∀ (s : EngineState) (now : Nat),
        (s.timeoutSweep now).1.delivered = s.delivered
        ∧ (s.timeoutSweep now).1.queue = s.queue)
    ∧ (∀ (s : EngineState) (mm : MulticastMessage) (f : String),
        mm.messageId ∉ s.received →
        (s.handleMulticastMsg mm f).2.1
          = [(⟨f, s.processId, LamportClock.tick s.clock, "ACK", [],
                mm.messageId⟩, mm.senderId)]) := by
  refine ⟨fun s content r? id now => ⟨rfl, rfl⟩, ?_, ?_, ?_, ?_, ?_⟩
  · intro s content id now mm r hmem
    simp only [EngineState.multicast, List.mem_map] at hmem
    obtain ⟨x, hx, hxe⟩ := hmem
    have := (List.mem_filter.mp hx).2
    simp only [decide_eq_true_eq] at this
    rw [← (Prod.mk.injEq _ _ _ _).mp hxe |>.2]
    exact this
  · intro s content id l now mm r hmem
    simp only [EngineState.multicast, List.mem_map] at hmem
    obtain ⟨x, hx, hxe⟩ := hmem
    rw [← (Prod.mk.injEq _ _ _ _).mp hxe |>.2]
    exact hx
  · intro s a
    unfold EngineState.handleAckMsg
    split
    · exact ⟨rfl, rfl⟩
    · dsimp only
      split <;> (split <;> exact ⟨rfl, rfl⟩)
  · exact fun s now => ⟨rfl, rfl⟩
  · intro s mm f h
    unfold EngineState.handleMulticastMsg
    rw [if_neg (by simpa using h)]

/-- C2 witness: peer 0 sends to the explicit recipient list [1] (the send
goes to 1), and handling a fresh multicast whose sender is peer 0 itself
makes peer 0 emit an Ack addressed to itself. -/
theorem sender_no_self_delivery_witness :
    (1 : Int) ∈ [1]
    ∧ ((EngineState.init 0).handleMulticastMsg mEqB "k").2.1
        = [(⟨"k", 0, 1, "ACK", [], "b"⟩, 0)] := by
  constructor
  · exact sender_no_self_delivery.2.2.1 (EngineState.init 0) "hi" "m" [1] 0
      ⟨"m", 0, 1, "hi", [1], 0, true⟩ 1 (by decide)
  · exact sender_no_self_delivery.2.2.2.2.2 (EngineState.init 0) mEqB "k"
      (by decide)

/-- C2 counterexample: peer 0 multicasts "hi" with recipients [1]; the only
transport send goes to peer 1, and after peer 1's Ack arrives the pending
entry completes (pending table empties) while peer 0's delivered set stays
empty and on_delivered was never invoked — the sender never delivers its
own message. -/
theorem sender_no_self_delivery_counterexample :
    (((EngineState.init 0).multicast "hi" (some [1]) "m0" 0).2
        = [(⟨"m0", 0, 1, "hi", [1], 0, true⟩, 1)])
    ∧ (((EngineState.init 0).multicast "hi" (some [1]) "m0" 0).1.handleReceived
          (Msg.ack ⟨"a1", 1, 3, "ACK", [], "m0"⟩) "u"
        = (⟨0, 4, [], [], [], [], 1, [0]⟩, [], [])) := by
  exact ⟨rfl, rfl⟩

/-- C3 (amended): a multicast with an empty recipient list does NOT
immediately complete. Its PendingEntry is created and, since no Ack can
ever arrive, survives until the retry budget is spent: each sweep whose
wall time exceeds the previous send time by more than ACK_TIMEOUT
retransmits to nobody while incrementing retry_count, and the sweep after
retry_count reaches MAX_RETRIES removes the entry and invokes on_failed
once with the message; on_delivered is never invoked for it. -/
theorem empty_recipients_lifecycle (s : EngineState) (content id : String)
    (n0 n1 n2 n3 n4 : Nat) (hp : s.pending = [])
    (h1 : n0 + ackTimeout < n1) (h2 : n1 + ackTimeout < n2)
    (h3 : n2 + ackTimeout < n3) (h4 : n3 + ackTimeout < n4) :
    (let msg : MulticastMessage :=
      ⟨id, s.processId, s.clock + 1, content, [], s.seqNum, true⟩
     let r0 := s.multicast content (some []) id n0
     let r1 := r0.1.timeoutSweep n1
     let r2 := r1.1.timeoutSweep n2
     let r3 := r2.1.timeoutSweep n3
     let r4 := r3.1.timeoutSweep n4
     r0.2 = []
     ∧ r0.1.pending = [(id, ⟨msg, n0, [], 0⟩)]
     ∧ r1.1.pending = [(id, ⟨msg, n1, [], 1⟩)] ∧ r1.2.1 = [] ∧ r1.2.2 = []
     ∧ r2.1.pending = [(id, ⟨msg, n2, [], 2⟩)] ∧ r2.2.1 = [] ∧ r2.2.2 = []
     ∧ r3.1.pending = [(id, ⟨msg, n3, [], 3⟩)] ∧ r3.2.1 = [] ∧ r3.2.2 = []
     ∧ r4.1.pending = [] ∧ r4.2.1 = [] ∧ r4.2.2 = [msg]) := by
  intro msg r0 r1 r2 r3 r4
  have h0 : r0.1.pending = [(id, ⟨msg, n0, [], 0⟩)] := by
    show (s.pending ++ [(id, ⟨msg, n0, [], 0⟩)]) = _
    rw [hp, List.nil_append]
  have s1 := timeoutSweep_single_retry r0.1 id ⟨msg, n0, [], 0⟩ h0 n1 h1
    (by norm_num [maxRetries]) rfl
  have s2 := timeoutSweep_single_retry r1.1 id ⟨msg, n1, [], 1⟩ s1.1 n2 h2
    (by norm_num [maxRetries]) rfl
  have s3 := timeoutSweep_single_retry r2.1 id ⟨msg, n2, [], 2⟩ s2.1 n3 h3
    (by norm_num [maxRetries]) rfl
  have s4 := timeoutSweep_single_fail r3.1 id ⟨msg, n3, [], 3⟩ s3.1 n4 h4
    (by norm_num [maxRetries])
  exact ⟨rfl, h0, s1.1, s1.2.1, s1.2.2, s2.1, s2.2.1, s2.2.2, s3.1,
    s3.2.1, s3.2.2, s4.1, s4.2.1, s4.2.2⟩

/-- C3 witness: the lifecycle at peer 0 with send time 0 and sweeps at 6,
12, 18, 24: the failure callback fires with the original message and the
pending table is empty at the end. -/
theorem empty_recipients_lifecycle_witness :
    ((((((EngineState.init 0).multicast "empty" (some []) "e0"
        0).1.timeoutSweep 6).1.timeoutSweep 12).1.timeoutSweep
        18).1.timeoutSweep 24).1.pending = []
    ∧ ((((((EngineState.init 0).multicast "empty" (some []) "e0"
        0).1.timeoutSweep 6).1.timeoutSweep 12).1.timeoutSweep
        18).1.timeoutSweep 24).2.2
        = [⟨"e0", 0, 1, "empty", [], 0, true⟩] := by
  have h := empty_recipients_lifecycle (EngineState.init 0) "empty" "e0"
    0 6 12 18 24 rfl (by decide) (by decide) (by decide) (by decide)
  exact ⟨h.2.2.2.2.2.2.2.2.2.2.2.1, h.2.2.2.2.2.2.2.2.2.2.2.2.2⟩

/-- C3 counterexample: the PendingEntry of an empty-recipient multicast
does not immediately complete — it is still pending after the send and
after the first timeout sweep — and on_failed IS eventually invoked for
that message (after the retry budget is spent), contradicting the claim
that the entry is removed at once and neither callback ever fires. -/
theorem empty_recipients_counterexample :
    ((EngineState.init 0).multicast "empty" (some []) "e0" 0).1.pending ≠ []
    ∧ (((EngineState.init 0).multicast "empty" (some []) "e0"
        0).1.timeoutSweep 6).1.pending ≠ []
    ∧ ((((((EngineState.init 0).multicast "empty" (some []) "e0"
        0).1.timeoutSweep 6).1.timeoutSweep 12).1.timeoutSweep
        18).1.timeoutSweep 24).2.2
        = [⟨"e0", 0, 1, "empty", [], 0, true⟩] := by
  refine ⟨by decide, by decide, rfl⟩

/-- C4 (amended): the subset invariant acks_received ⊆ recipients holds
for newly installed entries and is preserved by multicast, by inbound
multicast handling and by the timeout sweep unconditionally, and by
inbound Ack handling PROVIDED the ack's sender is a recipient of the
original message; an Ack from a non-recipient is added unconditionally and
breaks the invariant (see the counterexample). -/
theorem pending_subset_invariant_preservation :
    (∀ (s : EngineState) (content : String) (r? : Option (List Int))
        (id : String) (now : Nat),
        PendingInv s → PendingInv (s.multicast content r? id now).1)
    ∧ (∀ (s : EngineState) (m : MulticastMessage) (f : String),
        PendingInv s → PendingInv (s.handleMulticastMsg m f).1)
    ∧ (∀ (s : EngineState) (now : Nat),
        PendingInv s → PendingInv (s.timeoutSweep now).1)
    ∧ (∀ (s : EngineState) (a : AckMessage),
        (s.pending.map Prod.fst).Nodup →
        PendingInv s →
        (∀ e ∈ s.pending, e.1 = a.originalMessageId →
            a.senderId ∈ e.2.message.recipients) →
        PendingInv (s.handleAckMsg a)) := by
  refine ⟨?_, ?_, ?_, ?_⟩
  · intro s content r? id now hinv e he x hx
    simp only [EngineState.multicast, List.mem_append,
      List.mem_singleton] at he
    rcases he with he | he
    · exact hinv e he x hx
    · subst he; cases hx
  · intro s m f hinv e he x hx
    rw [handleMulticastMsg_pending] at he
    exact hinv e he x hx
  · intro s now hinv e he x hx
    simp only [EngineState.timeoutSweep, List.mem_map] at he
    obtain ⟨e', he', hee⟩ := he
    have he'p : e' ∈ s.pending := (List.mem_filter.mp he').1
    by_cases hcond : expiredb now e'.2 = true
    · rw [if_pos hcond] at hee
      subst hee
      exact hinv e' he'p x hx
    · rw [if_neg hcond] at hee
      subst hee
      exact hinv e' he'p x hx
  · intro s a hkeys hinv hrec
    unfold EngineState.handleAckMsg
    split
    · exact hinv
    · rename_i e hf
      obtain ⟨ek, ev⟩ := e
      have hmem := List.mem_of_find?_eq_some hf
      have hkey : ek = a.originalMessageId := by
        have h := List.find?_some hf
        simpa using h
      subst hkey
      have hacks2 : ∀ x ∈ ev.ackReceived ++ [a.senderId],
          x ∈ ev.message.recipients := by
        intro x hx
        rcases List.mem_append.mp hx with hx | hx
        · exact hinv _ hmem x hx
        · rw [List.mem_singleton.mp hx]
          exact hrec _ hmem rfl
      dsimp only
      split <;> split
      all_goals intro e' he' x hx
      all_goals first
      | exact hinv e' (List.mem_filter.mp he').1 x hx
      | (simp only [List.mem_map] at he'
         obtain ⟨⟨pk, pv⟩, hp, hpe⟩ := he'
         dsimp only at hpe
         by_cases hpk : pk = a.originalMessageId
         · rw [if_pos hpk] at hpe
           subst hpk
           have hpv : pv = ev := assoc_nodup_mem_unique hkeys hp hmem
           subst hpe
           dsimp only at hx ⊢
           rw [hpv]
           first
           | exact hinv _ hmem x hx
           | exact hacks2 x hx
         · rw [if_neg hpk] at hpe
           subst hpe
           exact hinv _ hp x hx)

/-- C4 witness: an Ack from peer 1, which IS a recipient of the pending
message, preserves the subset invariant. -/
theorem pending_subset_invariant_preservation_witness :
    PendingInv ((⟨0, 1,
        [("x", ⟨⟨"x", 0, 1, "hi", [1, 2], 0, true⟩, 0, [], 0⟩)],
        [], [], [], 1, [0]⟩ : EngineState).handleAckMsg
      ⟨"k", 1, 2, "ACK", [], "x"⟩) := by
  exact pending_subset_invariant_preservation.2.2.2 _ _ (by decide)
    (by unfold PendingInv; decide) (by decide)

/-- C4 counterexample: a pending message to recipients [1, 2] satisfies
the invariant, but handling an Ack for it whose sender is peer 3 — not a
recipient — adds 3 to ack_received unconditionally and breaks
m.recipients ⊇ acks_received. -/
theorem pending_subset_counterexample :
    PendingInv ⟨0, 1,
        [("x", ⟨⟨"x", 0, 1, "hi", [1, 2], 0, true⟩, 0, [], 0⟩)],
        [], [], [], 1, [0]⟩
    ∧ ¬ PendingInv ((⟨0, 1,
        [("x", ⟨⟨"x", 0, 1, "hi", [1, 2], 0, true⟩, 0, [], 0⟩)],
        [], [], [], 1, [0]⟩ : EngineState).handleAckMsg
      ⟨"k", 3, 2, "ACK", [], "x"⟩) := by
  unfold PendingInv
  constructor <;> decide

/-- C5: in one timeout sweep, every pending entry older than ACK_TIMEOUT
with retry_count < MAX_RETRIES stays in the table with retry_count
incremented and sent time reset to now, and the message is resent exactly
to recipients ∖ acks_received; an expired entry with retry_count ≥
MAX_RETRIES is removed, on_failed receives its message exactly once, and no
send of that sweep — nor of any later sweep, since sweeps only send
messages of entries still in the table — retransmits it. -/
theorem timeout_sweep_retry_and_fail (s : EngineState) (now : Nat)
    (id : String) (p : PendingMessage)
    (hkeys : (s.pending.map Prod.fst).Nodup)
    (hids : ∀ e ∈ s.pending, e.2.message.messageId = e.1)
    (hmem : (id, p) ∈ s.pending)
    (hexp : p.sentTime + ackTimeout < now) :
    (p.retryCount < maxRetries →
        ((id, { p with retryCount := p.retryCount + 1, sentTime := now })
            ∈ (s.timeoutSweep now).1.pending
         ∧ (∀ r : Int, (p.message, r) ∈ (s.timeoutSweep now).2.1
              ↔ (r ∈ p.message.recipients ∧ r ∉ p.ackReceived))
         ∧ (s.timeoutSweep now).2.2.filter
              (fun m => m.messageId = id) = []))
    ∧ (maxRetries ≤ p.retryCount →
        (id ∉ (s.timeoutSweep now).1.pending.map Prod.fst
         ∧ (s.timeoutSweep now).2.2.filter
              (fun m => m.messageId = id) = [p.message]
         ∧ (∀ mr ∈ (s.timeoutSweep now).2.1, mr.1.messageId ≠ id)))
    ∧ (∀ (s' : EngineState) (now' : Nat) (mr : MulticastMessage × Int),
        (∀ e ∈ s'.pending, e.2.message.messageId = e.1) →
        mr ∈ (s'.timeoutSweep now').2.1 →
        mr.1.messageId ∈ s'.pending.map Prod.fst) := by
  have hpe : expiredb now p = true := by
    simp only [expiredb, decide_eq_true_eq]
    exact hexp
  have hpid : p.message.messageId = id := by simpa using hids (id, p) hmem
  refine ⟨?_, ?_, ?_⟩
  · intro hrc
    have hdec : decide (p.retryCount < maxRetries) = true :=
      decide_eq_true hrc
    have hnf : failP now (id, p) = false := by
      simp [failP, hpe, hdec]
    refine ⟨?_, ?_, ?_⟩
    · rw [timeoutSweep_eq]
      refine List.mem_map.mpr ⟨(id, p), ?_, ?_⟩
      · exact List.mem_filter.mpr ⟨hmem, by simp [hnf]⟩
      · simp [hpe]
    · intro r
      rw [timeoutSweep_eq]
      constructor
      · intro hmr
        simp only [sweepSends, List.mem_flatten, List.mem_map] at hmr
        obtain ⟨l, ⟨e, he, rfl⟩, hml⟩ := hmr
        have hef := List.mem_filter.mp he
        have hek := List.mem_filter.mp hef.1
        simp only [retrySends, List.mem_map, List.mem_filter,
          List.mem_dedup] at hml
        obtain ⟨r', ⟨hr'm, hr'a⟩, hre⟩ := hml
        injection hre with hre1 hre2
        subst hre2
        have heid : e.1 = id := by
          rw [← hids e hek.1, hre1, hpid]
        have hep : e.2 = p := by
          have hm2 : ((id : String), e.2) ∈ s.pending := by
            rw [← heid]
            exact hek.1
          exact assoc_nodup_mem_unique hkeys hm2 hmem
        rw [hep] at hr'm hr'a
        refine ⟨hr'm, ?_⟩
        simpa using hr'a
      · intro hr
        simp only [sweepSends]
        apply List.mem_flatten.mpr
        refine ⟨retrySends p, List.mem_map.mpr ⟨(id, p), ?_, rfl⟩, ?_⟩
        · exact List.mem_filter.mpr
            ⟨List.mem_filter.mpr ⟨hmem, by simp [hnf]⟩, hpe⟩
        · simp only [retrySends, List.mem_map]
          refine ⟨r, ?_, rfl⟩
          exact List.mem_filter.mpr
            ⟨List.mem_dedup.mpr hr.1, by simpa using hr.2⟩
    · rw [timeoutSweep_eq]
      show (sweepFails now s.pending).filter (fun m => m.messageId = id) = []
      rw [sweepFails, fails_filter_eq hkeys hids hmem, if_neg]
      rw [hnf]
      simp
  · intro hrc
    have hdec : decide (p.retryCount < maxRetries) = false :=
      decide_eq_false (by omega)
    have hyf : failP now (id, p) = true := by
      simp [failP, hpe, hdec]
    refine ⟨?_, ?_, ?_⟩
    · rw [timeoutSweep_eq]
      intro hcontra
      simp only [sweepPending, List.mem_map] at hcontra
      obtain ⟨ee, ⟨e, he, rfl⟩, heeid⟩ := hcontra
      have heid : e.1 = id := by
        revert heeid
        split
        · intro h; simpa using h
        · intro h; exact h
      have hef := List.mem_filter.mp he
      have hep : e.2 = p := by
        have hm2 : ((id : String), e.2) ∈ s.pending := by
          rw [← heid]
          exact hef.1
        exact assoc_nodup_mem_unique hkeys hm2 hmem
      have hcond := hef.2
      have hke : ((id : String), p) = e := by
        rw [← heid, ← hep]
      rw [← hke, hyf] at hcond
      simp at hcond
    · rw [timeoutSweep_eq]
      show (sweepFails now s.pending).filter (fun m => m.messageId = id)
        = [p.message]
      rw [sweepFails, fails_filter_eq hkeys hids hmem, if_pos]
      rw [hyf]
    · intro mr hmr
      rw [timeoutSweep_eq] at hmr
      simp only [sweepSends, List.mem_flatten, List.mem_map] at hmr
      obtain ⟨l, ⟨e, he, rfl⟩, hml⟩ := hmr
      have hef := List.mem_filter.mp he
      have hek := List.mem_filter.mp hef.1
      simp only [retrySends, List.mem_map] at hml
      obtain ⟨r, hr, hre⟩ := hml
      have hm1 : mr.1 = e.2.message := by rw [← hre]
      intro hcid
      have heid : e.1 = id := by
        rw [← hids e hek.1, ← hm1, hcid]
      have hep : e.2 = p := by
        have hm2 : ((id : String), e.2) ∈ s.pending := by
          rw [← heid]
          exact hek.1
        exact assoc_nodup_mem_unique hkeys hm2 hmem
      have hcond := hek.2
      have hke : ((id : String), p) = e := by
        rw [← heid, ← hep]
      rw [← hke] at hcond
      have hyf : failP now (id, p) = true := by
        simp [failP, hpe, hdec]
      rw [hyf] at hcond
      simp at hcond
  · intro s' now' mr hids' hmr
    rw [timeoutSweep_eq] at hmr
    simp only [sweepSends, List.mem_flatten, List.mem_map] at hmr
    obtain ⟨l, ⟨e, he, rfl⟩, hml⟩ := hmr
    have hep : e ∈ s'.pending :=
      (List.mem_filter.mp (List.mem_filter.mp he).1).1
    simp only [retrySends, List.mem_map] at hml
    obtain ⟨r, hr, hre⟩ := hml
    have hm1 : mr.1 = e.2.message := by rw [← hre]
    rw [hm1, hids' e hep]
    exact List.mem_map.mpr ⟨e, hep, rfl⟩

/-- C5 witness: at wall time 6 an entry sent at 0 with retry_count 0 is
retried (count 1, sent time 6), while an entry with retry_count 3 has its
message reported to on_failed exactly once. -/
theorem timeout_sweep_retry_and_fail_witness :
    (("m", (⟨⟨"m", 0, 1, "hi", [1], 0, true⟩, 6, [], 1⟩ : PendingMessage))
        ∈ ((⟨0, 1, [("m", ⟨⟨"m", 0, 1, "hi", [1], 0, true⟩, 0, [], 0⟩)],
            [], [], [], 1, [0]⟩ : EngineState).timeoutSweep 6).1.pending)
    ∧ (((⟨0, 1, [("m", ⟨⟨"m", 0, 1, "hi", [1], 0, true⟩, 0, [], 3⟩)],
          [], [], [], 1, [0]⟩ : EngineState).timeoutSweep 6).2.2.filter
          (fun m => m.messageId = "m")
        = [⟨"m", 0, 1, "hi", [1], 0, true⟩]) := by
  constructor
  · exact ((timeout_sweep_retry_and_fail
      ⟨0, 1, [("m", ⟨⟨"m", 0, 1, "hi", [1], 0, true⟩, 0, [], 0⟩)],
        [], [], [], 1, [0]⟩ 6 "m" ⟨⟨"m", 0, 1, "hi", [1], 0, true⟩, 0, [], 0⟩
      (by decide) (by decide) (by decide) (by decide)).1 (by decide)).1
  · exact (((timeout_sweep_retry_and_fail
      ⟨0, 1, [("m", ⟨⟨"m", 0, 1, "hi", [1], 0, true⟩, 0, [], 3⟩)],
        [], [], [], 1, [0]⟩ 6 "m" ⟨⟨"m", 0, 1, "hi", [1], 0, true⟩, 0, [], 3⟩
      (by decide) (by decide) (by decide) (by decide)).2.1 (by decide)).2.1)

/-- C6: handling the same inbound Multicast (same message_id) twice is
idempotent on the receive-path state: the delivered set, the ordering queue
and the received set after the second handling equal those after the
first, the second handling emits no Ack and no delivery, the two handlings
together emit exactly one Ack — addressed to the sender — and on_delivered
fires at most once for that message_id. -/
theorem handle_multicast_idempotent (s : EngineState)
    (m : MulticastMessage) (f1 f2 : String)
    (hfresh : m.messageId ∉ s.received) :
    ((s.handleReceived (Msg.mc m) f1).1.handleReceived
        (Msg.mc m) f2).1.delivered
      = (s.handleReceived (Msg.mc m) f1).1.delivered
    ∧ ((s.handleReceived (Msg.mc m) f1).1.handleReceived
        (Msg.mc m) f2).1.queue
      = (s.handleReceived (Msg.mc m) f1).1.queue
    ∧ ((s.handleReceived (Msg.mc m) f1).1.handleReceived
        (Msg.mc m) f2).1.received
      = (s.handleReceived (Msg.mc m) f1).1.received
    ∧ ((s.handleReceived (Msg.mc m) f1).1.handleReceived
        (Msg.mc m) f2).2 = ([], [])
    ∧ (s.handleReceived (Msg.mc m) f1).2.1.map Prod.snd = [m.senderId]
    ∧ ((s.handleReceived (Msg.mc m) f1).2.2.filter
        (fun x => x.messageId = m.messageId)).length ≤ 1 := by
  have h1 := handleMulticastMsg_fresh
    { s with clock := LamportClock.update s.clock m.timestamp } m f1 hfresh
  have hdup : m.messageId ∈
      ((s.handleReceived (Msg.mc m) f1).1).received := by
    rw [handleReceived_mc, h1]
    simp
  have h2 := handleMulticastMsg_dup
    { (s.handleReceived (Msg.mc m) f1).1 with
      clock := LamportClock.update
        ((s.handleReceived (Msg.mc m) f1).1).clock m.timestamp } m f2
    hdup
  rw [handleReceived_mc ((s.handleReceived (Msg.mc m) f1).1) m f2, h2]
  refine ⟨rfl, rfl, rfl, rfl, ?_, ?_⟩
  · rw [handleReceived_mc, h1]
    rfl
  · rw [handleReceived_mc, h1]
    exact filter_key_len_le_one
      (fun x : MulticastMessage => x.messageId) m.messageId _
      (tryDeliver_calls_fresh _ _).1

/-- C6 witness: a fresh inbound multicast from peer 5 handled twice by
peer 0: state idempotence, a single Ack to peer 5, and one delivery. -/
theorem handle_multicast_idempotent_witness :
    (((EngineState.init 0).handleReceived
        (Msg.mc ⟨"q1", 5, 10, "pay", [1], 0, true⟩) "k1").1.handleReceived
        (Msg.mc ⟨"q1", 5, 10, "pay", [1], 0, true⟩) "k2").1.delivered
      = ((EngineState.init 0).handleReceived
        (Msg.mc ⟨"q1", 5, 10, "pay", [1], 0, true⟩) "k1").1.delivered
    ∧ ((EngineState.init 0).handleReceived
        (Msg.mc ⟨"q1", 5, 10, "pay", [1], 0, true⟩) "k1").2.1.map Prod.snd
      = [(5 : Int)] := by
  have h := handle_multicast_idempotent (EngineState.init 0)
    ⟨"q1", 5, 10, "pay", [1], 0, true⟩ "k1" "k2" (by decide)
  exact ⟨h.1, h.2.2.2.2.1⟩

/-- C7: the wire encoding round-trips — deserializing the serialization of
any Multicast or Ack message yields a record equal to it in all fields.
Every message the program constructs has a non-empty message_id (an empty
one is replaced by a fresh uuid in `__post_init__`), which the hypothesis
records. -/
theorem wire_roundtrip :
    (∀ (m : MulticastMessage) (fresh : String), m.messageId ≠ "" →
        fromJson fresh (Msg.toJson (Msg.mc m)) = some (Msg.mc m))
    ∧ (∀ (a : AckMessage) (fresh : String), a.messageId ≠ "" →
        fromJson fresh (Msg.toJson (Msg.ack a)) = some (Msg.ack a)) := by
  constructor
  · intro m fresh h
    have hstep : fromJson fresh (Msg.toJson (Msg.mc m))
        = some (Msg.mc ⟨fixId fresh m.messageId, m.senderId, m.timestamp,
            m.content, m.recipients, m.sequenceNumber, m.requiresAck⟩) := rfl
    rw [hstep, fixId, if_neg h]
  · intro a fresh h
    have hstep : fromJson fresh (Msg.toJson (Msg.ack a))
        = some (Msg.ack ⟨fixId fresh a.messageId, a.senderId, a.timestamp,
            a.content, a.recipients, a.originalMessageId⟩) := rfl
    rw [hstep, fixId, if_neg h]

/-- C7 witness: the round trip at a concrete Multicast and a concrete
Ack. -/
theorem wire_roundtrip_witness :
    fromJson "f" (Msg.toJson (Msg.mc ⟨"id1", 2, 5, "hello", [1, 2], 7,
        false⟩))
      = some (Msg.mc ⟨"id1", 2, 5, "hello", [1, 2], 7, false⟩)
    ∧ fromJson "f" (Msg.toJson (Msg.ack ⟨"id2", 3, 9, "ACK", [], "orig"⟩))
      = some (Msg.ack ⟨"id2", 3, 9, "ACK", [], "orig"⟩) := by
  constructor
  · exact wire_roundtrip.1 ⟨"id1", 2, 5, "hello", [1, 2], 7, false⟩ "f"
      (by decide)
  · exact wire_roundtrip.2 ⟨"id2", 3, 9, "ACK", [], "orig"⟩ "f" (by decide)

/-- C9 (amended): a frame whose message_type is any string outside the
five enum values "multicast", "acknowledgment", "heartbeat", "join",
"leave" is a decode error; but "heartbeat", "join" and "leave" — strings
other than "multicast"/"acknowledgment" — are accepted and decode to a
base Message record rather than failing. -/
theorem unknown_discriminator_decode :
    (∀ (o : JObj) (fresh t : String),
        jget o "message_type" = some (JVal.s t) →
        MessageType.ofValue t = none → fromJson fresh o = none)
    ∧ (∀ t : String, MessageType.ofValue t = none ↔
        ¬ (t = "multicast" ∨ t = "acknowledgment" ∨ t = "heartbeat"
            ∨ t = "join" ∨ t = "leave"))
    ∧ (∀ (fresh mid c : String) (sid ts : Int), mid ≠ "" →
        fromJson fresh [("message_id", JVal.s mid),
            ("sender_id", JVal.i sid),
            ("message_type", JVal.s "heartbeat"),
            ("timestamp", JVal.i ts), ("content", JVal.s c)]
          = some (Msg.base ⟨mid, sid, MessageType.heartbeat, ts, c, []⟩)) := by
  refine ⟨?_, ?_, ?_⟩
  · intro o fresh t hmt hnone
    unfold fromJson
    rw [hmt]
    dsimp only
    rw [hnone]
  · intro t
    unfold MessageType.ofValue
    split_ifs with h1 h2 h3 h4 h5 <;> simp_all
  · intro fresh mid c sid ts hmid
    have hstep : fromJson fresh [("message_id", JVal.s mid),
        ("sender_id", JVal.i sid),
        ("message_type", JVal.s "heartbeat"),
        ("timestamp", JVal.i ts), ("content", JVal.s c)]
        = some (Msg.base ⟨fixId fresh mid, sid, MessageType.heartbeat,
            ts, c, []⟩) := rfl
    rw [hstep, fixId, if_neg hmid]

/-- C9 witness: the string "unknown_type" is rejected, while a heartbeat
frame decodes to a base record. -/
theorem unknown_discriminator_decode_witness :
    fromJson "f" [("message_id", JVal.s "m"), ("sender_id", JVal.i 1),
        ("message_type", JVal.s "unknown_type"), ("timestamp", JVal.i 0),
        ("content", JVal.s "c")] = none
    ∧ fromJson "f" [("message_id", JVal.s "m"), ("sender_id", JVal.i 1),
        ("message_type", JVal.s "heartbeat"), ("timestamp", JVal.i 0),
        ("content", JVal.s "c")]
      = some (Msg.base ⟨"m", 1, MessageType.heartbeat, 0, "c", []⟩) := by
  constructor
  · exact unknown_discriminator_decode.1 _ "f" "unknown_type" rfl rfl
  · exact unknown_discriminator_decode.2.2 "f" "m" "c" 1 0 (by decide)

/-- C9 counterexample: "heartbeat" is a string other than "multicast" and
"acknowledgment", yet deserializing a frame carrying it succeeds with a
base Message record instead of failing, so the claim that any such string
is a decode error is false. -/
theorem unknown_discriminator_counterexample :
    ("heartbeat" ≠ "multicast" ∧ "heartbeat" ≠ "acknowledgment")
    ∧ fromJson "f" [("message_id", JVal.s "m"), ("sender_id", JVal.i 1),
        ("message_type", JVal.s "heartbeat"), ("timestamp", JVal.i 0),
        ("content", JVal.s "c")]
      = some (Msg.base ⟨"m", 1, MessageType.heartbeat, 0, "c", []⟩) := by
  exact ⟨⟨by decide, by decide⟩, rfl⟩

/-- C10: deserialization is deterministic exactly on frames whose
message_id is a non-empty string — the result does not depend on the
generated uuid; on a frame whose message_id is the empty string the
deserialized record carries the freshly generated uuid, so two
deserializations with distinct fresh uuids differ in message_id. -/
theorem deserialization_fresh_id :
    (∀ (o : JObj) (u1 u2 mid : String),
        jget o "message_id" = some (JVal.s mid) → mid ≠ "" →
        fromJson u1 o = fromJson u2 o)
    ∧ (∀ (o : JObj) (u1 u2 : String) (m1 m2 : Msg),
        jget o "message_id" = some (JVal.s "") →
        fromJson u1 o = some m1 → fromJson u2 o = some m2 →
        m1.msgId = u1 ∧ m2.msgId = u2
          ∧ (u1 ≠ u2 → m1.msgId ≠ m2.msgId)) := by
  constructor
  · intro o u1 u2 mid hmid hne
    exact fromJson_fresh_eq u1 u2 o mid hmid hne
  · intro o u1 u2 m1 m2 hmid h1 h2
    have e1 : m1.msgId = u1 :=
      (fromJson_msgId u1 o m1 "" hmid h1).trans rfl
    have e2 : m2.msgId = u2 :=
      (fromJson_msgId u2 o m2 "" hmid h2).trans rfl
    refine ⟨e1, e2, ?_⟩
    intro hne hc
    rw [e1, e2] at hc
    exact hne hc

/-- C10 witness: a frame with empty message_id deserialized with fresh
uuids "u1" and "u2" yields records whose message_ids are the two distinct
uuids, while a frame with message_id "m" deserializes identically under
both. -/
theorem deserialization_fresh_id_witness :
    ((Msg.mc ⟨"u1", 1, 0, "c", [], 0, true⟩ : Msg).msgId = "u1"
      ∧ (Msg.mc ⟨"u2", 1, 0, "c", [], 0, true⟩ : Msg).msgId = "u2"
      ∧ ("u1" ≠ "u2" →
          (Msg.mc ⟨"u1", 1, 0, "c", [], 0, true⟩ : Msg).msgId
            ≠ (Msg.mc ⟨"u2", 1, 0, "c", [], 0, true⟩ : Msg).msgId))
    ∧ fromJson "u1" [("message_id", JVal.s "m"), ("sender_id", JVal.i 1),
        ("message_type", JVal.s "multicast"), ("timestamp", JVal.i 0),
        ("content", JVal.s "c")]
      = fromJson "u2" [("message_id", JVal.s "m"), ("sender_id", JVal.i 1),
        ("message_type", JVal.s "multicast"), ("timestamp", JVal.i 0),
        ("content", JVal.s "c")] := by
  constructor
  · exact deserialization_fresh_id.2
      [("message_id", JVal.s ""), ("sender_id", JVal.i 1),
        ("message_type", JVal.s "multicast"), ("timestamp", JVal.i 0),
        ("content", JVal.s "c")] "u1" "u2"
      (Msg.mc ⟨"u1", 1, 0, "c", [], 0, true⟩)
      (Msg.mc ⟨"u2", 1, 0, "c", [], 0, true⟩) rfl rfl rfl
  · exact deserialization_fresh_id.1 _ "u1" "u2" "m" rfl (by decide)

end RM
